import Mathlib

/-!
A verification development for the savethepoor expense-splitting Telegram bot
(src/db.py and src/main.py).

The persistent PostgreSQL tables (users, transactions, debts) are embedded as
a `Store` record and the asyncpg queries of src/db.py as pure functions on
`Store`.  The conversation handlers of src/main.py are embedded as functions
on `Store` together with a per-user session value, and `step` is the
sequential small-step semantics of the whole system, one inbound chat event
at a time; `Reach` is reachability from the empty deployment.

Modelling conventions:
* money amounts are exact rationals; the source computes them with Python
  floats, and divergences caused by that are noted at the relevant claims;
* Python's `float(text)` and `int(text)` are modelled on the decimal-numeral
  sublanguage (optional sign, digits, at most one decimal point; exponents,
  underscores, inf/nan forms are outside the model);
* the `async with conn.transaction()` block of `add_transaction` is modelled
  by `add_transaction_tx`, which runs the inserts one at a time with an
  optional failure point and rolls the store back on failure, as the backing
  engine guarantees.
-/

namespace SaveThePoor

attribute [local semireducible] Rat.inv Rat.mul Rat.add Rat.sub

/-! ## String models (Python str.strip / str.replace / str.lower / str.split) -/

/-- Model of Python `str.strip()`: drop whitespace from both ends. -/
def pyStrip (s : String) : String :=
  String.mk (((s.data.dropWhile Char.isWhitespace).reverse.dropWhile Char.isWhitespace).reverse)

/-- Model of `text.replace(",", "")` in `ae_amount` (src/main.py:92): delete every comma. -/
def stripCommas (s : String) : String :=
  String.mk (s.data.filter (fun c => c != ','))

/-- Model of Python `str.lower()` used for display-name matching in `cp_debtor`. -/
def lowerStr (s : String) : String :=
  String.mk (s.data.map Char.toLower)

/-- Split a character list at every occurrence of `c`; model of Python
`str.split("_")` as used on callback data in `ae_select_callback`. -/
def splitOnChar (c : Char) : List Char → List (List Char)
  | [] => [[]]
  | x :: xs =>
    match splitOnChar c xs with
    | [] => if x = c then [[], []] else [[x]]
    | y :: ys => if x = c then [] :: y :: ys else (x :: y) :: ys

def digitsToNat (cs : List Char) : ℕ :=
  cs.foldl (fun a c => 10 * a + (c.toNat - 48)) 0

def allDigits (cs : List Char) : Bool :=
  cs.all Char.isDigit

/-- Model of Python `int(text)` on the digit-string sublanguage. -/
def pyIntChars? (cs : List Char) : Option ℕ :=
  if !cs.isEmpty && allDigits cs then some (digitsToNat cs) else none

/-- Model of Python `int(text)` on a string. -/
def pyInt? (s : String) : Option ℕ :=
  pyIntChars? s.data

/-- Unsigned decimal numeral with at most one decimal point; the unsigned
fragment of Python `float(text)`. -/
def pyFloatCore (cs : List Char) : Option ℚ :=
  match splitOnChar '.' cs with
  | [ip] =>
    if allDigits ip && !ip.isEmpty then some (digitsToNat ip : ℚ) else none
  | [ip, fp] =>
    if allDigits ip && allDigits fp && !(ip.isEmpty && fp.isEmpty) then
      some ((digitsToNat ip : ℚ) + (digitsToNat fp : ℚ) / ((10 : ℚ) ^ fp.length))
    else none
  | _ => none

/-- Model of Python `float(text)` on the signed decimal-numeral sublanguage. -/
def pyFloat (s : String) : Option ℚ :=
  match s.data with
  | '-' :: rest => (pyFloatCore rest).map (fun q => -q)
  | '+' :: rest => pyFloatCore rest
  | _ => pyFloatCore s.data

/-! ## Data model: the users, transactions and debts tables -/

/-- The debts.status enum: `'pending'`, `'marked'`, `'confirmed'`. -/
inductive Status where
  | pending
  | marked
  | confirmed
deriving DecidableEq, Repr

/-- A row of the debts table. -/
structure Debt where
  transaction_id : ℕ
  debtor_id : ℕ
  status : Status
deriving DecidableEq, Repr

/-- A row of the transactions table. -/
structure Txn where
  id : ℕ
  spender : ℕ
  amount : ℚ
  description : String
  share : ℚ
deriving DecidableEq, Repr

/-- The whole database: users, transactions, debts, and the id sequence
backing `transactions.id`. -/
structure Store where
  users : List (ℕ × String)
  transactions : List Txn
  debts : List Debt
  nextId : ℕ
deriving DecidableEq, Repr

/-- The key identifying a debt row: the (transaction_id, debtor_id) pair. -/
def debtKey (d : Debt) : ℕ × ℕ :=
  (d.transaction_id, d.debtor_id)

/-! ## src/db.py operations -/

/-- db.get_user (src/db.py:22-25). -/
def get_user (s : Store) (u : ℕ) : Option String :=
  (s.users.find? (fun p => p.1 == u)).map Prod.snd

/-- db.create_or_update_user (src/db.py:14-20): upsert of the display name. -/
def create_or_update_user (s : Store) (u : ℕ) (name : String) : Store :=
  if s.users.any (fun p => p.1 == u) then
    { s with users := s.users.map (fun p => if p.1 == u then (u, name) else p) }
  else
    { s with users := s.users ++ [(u, name)] }

/-- db.add_transaction (src/db.py:32-46), successful run: insert the
transaction row, then one pending debt row per entry of `debtor_ids`, and
return the fresh transaction id.  No validation is performed. -/
def add_transaction (s : Store) (spender : ℕ) (amount : ℚ) (description : String)
    (share : ℚ) (debtor_ids : List ℕ) : Store × ℕ :=
  ({ s with
      transactions := s.transactions ++ [⟨s.nextId, spender, amount, description, share⟩],
      debts := s.debts ++ debtor_ids.map (fun d => ⟨s.nextId, d, Status.pending⟩),
      nextId := s.nextId + 1 },
   s.nextId)

/-- The insert loop of `add_transaction` (src/db.py:41-45) with an explicit
failure point: `failAt = some k` means the k-th insert raises (the debt
inserts are numbered from 1; 0 is the transaction-row insert).  On failure the
dirty intermediate store is returned in the error, to be discarded by the
surrounding transaction block. -/
def insertDebts (txId : ℕ) (failAt : Option ℕ) : List ℕ → ℕ → Store → Except Store Store
  | [], _, s => Except.ok s
  | d :: rest, pos, s =>
    if failAt = some pos then Except.error s
    else insertDebts txId failAt rest (pos + 1)
      { s with debts := s.debts ++ [⟨txId, d, Status.pending⟩] }

/-- The body of `add_transaction` run inside `async with conn.transaction()`
(src/db.py:34-46) with an explicit failure point. -/
def add_transaction_attempt (s : Store) (spender : ℕ) (amount : ℚ) (description : String)
    (share : ℚ) (debtor_ids : List ℕ) (failAt : Option ℕ) : Except Store (Store × ℕ) :=
  if failAt = some 0 then Except.error s
  else
    let txId := s.nextId
    let s1 := { s with
      transactions := s.transactions ++ [⟨txId, spender, amount, description, share⟩],
      nextId := txId + 1 }
    (insertDebts txId failAt debtor_ids 1 s1).map (fun s2 => (s2, txId))

/-- `add_transaction` with the transaction block's commit-or-rollback
semantics: on success the final store is committed, on any failure the
caller observes the original store and no transaction id. -/
def add_transaction_tx (s : Store) (spender : ℕ) (amount : ℚ) (description : String)
    (share : ℚ) (debtor_ids : List ℕ) (failAt : Option ℕ) : Store × Option ℕ :=
  match add_transaction_attempt s spender amount description share debtor_ids failAt with
  | Except.ok (s', txId) => (s', some txId)
  | Except.error _ => (s, none)

/-- db.get_pending_debts_for_user (src/db.py:48-56): transactions joined to
the caller's pending debts. -/
def get_pending_debts_for_user (s : Store) (u : ℕ) : List Txn :=
  (s.debts.filter (fun d => d.debtor_id == u && d.status == Status.pending)).filterMap
    (fun d => s.transactions.find? (fun t => t.id == d.transaction_id))

/-- The row update applied by db.mark_debt_as_marked: set status to
`'marked'` on every row matching the (transaction_id, debtor_id) pair,
with no condition on the current status. -/
def markUpd (txId u : ℕ) (d : Debt) : Debt :=
  if d.transaction_id = txId ∧ d.debtor_id = u then { d with status := Status.marked } else d

/-- db.mark_debt_as_marked (src/db.py:58-63): an unconditional UPDATE. -/
def mark_debt_as_marked (s : Store) (txId u : ℕ) : Store :=
  { s with debts := s.debts.map (markUpd txId u) }

/-- The row update applied by db.confirm_debt: set status to `'confirmed'`
on every row matching the pair, with no condition on the current status. -/
def confirmUpd (txId u : ℕ) (d : Debt) : Debt :=
  if d.transaction_id = txId ∧ d.debtor_id = u then { d with status := Status.confirmed } else d

/-- db.confirm_debt (src/db.py:76-81): an unconditional UPDATE. -/
def confirm_debt (s : Store) (txId u : ℕ) : Store :=
  { s with debts := s.debts.map (confirmUpd txId u) }

/-- db.get_pending_confirmations_for_spender (src/db.py:65-74): the caller's
own transactions having at least one marked debt. -/
def get_pending_confirmations_for_spender (s : Store) (u : ℕ) : List Txn :=
  s.transactions.filter
    (fun t => t.spender == u &&
      s.debts.any (fun d => d.transaction_id == t.id && d.status == Status.marked))

/-- db.get_marked_debtors (src/db.py:99-105). -/
def get_marked_debtors (s : Store) (txId : ℕ) : List ℕ :=
  (s.debts.filter (fun d => d.transaction_id == txId && d.status == Status.marked)).map
    Debt.debtor_id

/-! ## The split computation and the spec's split policy -/

/-- The per-debtor share as computed in `ae_select_callback`
(src/main.py:144): `share = amount / num`, one identical value for every
debtor.  The source computes this with Python float division. -/
def share_calc (amount : ℚ) (num : ℕ) : ℚ :=
  amount / (num : ℚ)

/-- Whether a rational is a whole number of minor currency units (cents). -/
def centMultiple (q : ℚ) : Bool :=
  (q * 100).den == 1

/-- Round half up to the minor currency unit. -/
def roundHalfUpCent (q : ℚ) : ℚ :=
  ((q * 100 + 1 / 2).floor : ℚ) / 100

/-- Modelled from the spec (§4.3), not present in the source: the share of
debtor `d`, where `amount / count` is rounded half up to the minor currency
unit and the division residual is accumulated onto the participant with the
lowest identifier. -/
def split_spec (amount : ℚ) (ids : List ℕ) (d : ℕ) : ℚ :=
  let base := roundHalfUpCent (amount / (ids.length : ℚ))
  let residual := amount - base * (ids.length : ℚ)
  match ids.min? with
  | some m => if d = m then base + residual else base
  | none => base

/-! ## src/main.py conversation handlers

Each handler is a function of the store, the acting user and the inbound
text/callback data, returning the new store, the user's next session state
and an observable outcome.  `Session` is the per-user conversation state
(the ConversationHandler state constant together with the `context.user_data`
fields guaranteed to be set at that state). -/

/-- Per-user conversation state.  `sNone` is "no active conversation". -/
inductive Session where
  | sNone
  | aeAmount
  | aeDescription (amount : ℚ)
  | aeSelect (amount : ℚ) (descr : String) (selected : List ℕ)
  | mpSelect
  | cpSelect
  | cpDebtor (txId : ℕ)
deriving DecidableEq, Repr

/-- Observable outcome of `ae_select_callback`. -/
inductive AeOutcome where
  | canceled
  | committed (txId : ℕ)
  | selecting
  | invalidSel
deriving DecidableEq, Repr

/-- Observable outcome of `mp_select`. -/
inductive MpOutcome where
  | invalidId
  | notFoundOrProcessed
  | markedOk
deriving DecidableEq, Repr

/-- Observable outcome of `cp_select`. -/
inductive CpOutcome where
  | invalidId
  | notFoundOrNotSpender
  | noMarked
  | needName
  | confirmedOne (debtor : ℕ)
deriving DecidableEq, Repr

/-- Observable outcome of `cp_debtor`. -/
inductive CpdOutcome where
  | noMatch
  | confirmedBy (debtor : ℕ)
deriving DecidableEq, Repr

/-- ae_amount (src/main.py:91-100): strip, drop thousands separators, parse
as float.  On parse failure re-prompt and stay in AE_AMOUNT; any parsed
value (also zero or negative) is stored and the session advances. -/
def ae_amount (text : String) : Session :=
  match pyFloat (stripCommas (pyStrip text)) with
  | none => Session.aeAmount
  | some a => Session.aeDescription a

/-- ae_description (src/main.py:102-108): store the stripped description,
start the participant selection with an empty selection. -/
def ae_description (amount : ℚ) (text : String) : Session :=
  Session.aeSelect amount (pyStrip text) []

/-- ae_select_callback (src/main.py:131-184).  On "select_done" with no
selection the expense is canceled; with a selection the share is computed
as `amount / num` and `db.add_transaction` is called.  Any other callback
data is parsed as `select_<uid>`; the uid is appended to the selection if
not already present (src/main.py:172-173; note there is no check that the
uid differs from the spender). -/
def ae_select_callback (s : Store) (spender : ℕ) (amount : ℚ) (descr : String)
    (selected : List ℕ) (data : String) : Store × Session × AeOutcome :=
  if data = "select_done" then
    if selected.isEmpty then
      (s, Session.sNone, AeOutcome.canceled)
    else
      let share := share_calc amount selected.length
      let r := add_transaction s spender amount descr share selected
      (r.1, Session.sNone, AeOutcome.committed r.2)
  else
    match (splitOnChar '_' data.data).get? 1 with
    | none => (s, Session.aeSelect amount descr selected, AeOutcome.invalidSel)
    | some cs =>
      match pyIntChars? cs with
      | none => (s, Session.aeSelect amount descr selected, AeOutcome.invalidSel)
      | some uid =>
        let selected' := if uid ∈ selected then selected else selected ++ [uid]
        (s, Session.aeSelect amount descr selected', AeOutcome.selecting)

/-- mp_select (src/main.py:204-234): parse the transaction id; look it up
among the caller's pending debts; if absent, re-prompt with no state change;
otherwise call `db.mark_debt_as_marked`. -/
def mp_select (s : Store) (u : ℕ) (text : String) : Store × Session × MpOutcome :=
  match pyInt? (pyStrip text) with
  | none => (s, Session.mpSelect, MpOutcome.invalidId)
  | some txId =>
    match (get_pending_debts_for_user s u).find? (fun t => t.id == txId) with
    | none => (s, Session.mpSelect, MpOutcome.notFoundOrProcessed)
    | some _ => (mark_debt_as_marked s txId u, Session.sNone, MpOutcome.markedOk)

/-- cp_select (src/main.py:255-291): parse the transaction id; look it up
among the caller's own transactions that have a marked debt; with no marked
debtor end with no change, with exactly one confirm it, with several ask for
the debtor's name (storing cp_tx_id in the session). -/
def cp_select (s : Store) (u : ℕ) (text : String) : Store × Session × CpOutcome :=
  match pyInt? (pyStrip text) with
  | none => (s, Session.cpSelect, CpOutcome.invalidId)
  | some txId =>
    match (get_pending_confirmations_for_spender s u).find? (fun t => t.id == txId) with
    | none => (s, Session.cpSelect, CpOutcome.notFoundOrNotSpender)
    | some _ =>
      match get_marked_debtors s txId with
      | [] => (s, Session.sNone, CpOutcome.noMarked)
      | [d] => (confirm_debt s txId d, Session.sNone, CpOutcome.confirmedOne d)
      | _ => (s, Session.cpDebtor txId, CpOutcome.needName)

/-- cp_debtor (src/main.py:293-316): match the typed display name (case
insensitive) against the marked debtors of the stored cp_tx_id; on a match
confirm that debt, otherwise re-prompt. -/
def cp_debtor (s : Store) (txId : ℕ) (text : String) : Store × Session × CpdOutcome :=
  let name := lowerStr (pyStrip text)
  match (get_marked_debtors s txId).find?
      (fun d => (get_user s d).map lowerStr == some name) with
  | none => (s, Session.cpDebtor txId, CpdOutcome.noMatch)
  | some d => (confirm_debt s txId d, Session.sNone, CpdOutcome.confirmedBy d)

/-! ## The whole system and its sequential step semantics -/

/-- The system state: the database plus every user's conversation state. -/
structure Sys where
  store : Store
  session : ℕ → Session

/-- Point update of the session map. -/
def setSess (f : ℕ → Session) (u : ℕ) (x : Session) : ℕ → Session :=
  fun v => if v = u then x else f v

/-- One inbound chat event, as routed by the ConversationHandlers of
src/main.py:343-397. -/
inductive Op where
  | register (u : ℕ) (name : String)
  | aeStart (u : ℕ)
  | aeText (u : ℕ) (text : String)
  | aeSelectCb (u : ℕ) (data : String)
  | mpStart (u : ℕ)
  | mpText (u : ℕ) (text : String)
  | cpStart (u : ℕ)
  | cpText (u : ℕ) (text : String)

/-- The sequential small-step semantics of the bot: each inbound event is
dispatched on the acting user's conversation state exactly as the
ConversationHandler state tables do, and handled by the embedded handler.
Events that only render messages (summaries, keyboards) do not change the
state and are omitted. -/
def step (sys : Sys) (op : Op) : Sys :=
  match op with
  | Op.register u name =>
    ⟨create_or_update_user sys.store u name, sys.session⟩
  | Op.aeStart u =>
    ⟨sys.store, setSess sys.session u
      (if (get_user sys.store u).isSome then Session.aeAmount else Session.sNone)⟩
  | Op.aeText u text =>
    match sys.session u with
    | Session.aeAmount => ⟨sys.store, setSess sys.session u (ae_amount text)⟩
    | Session.aeDescription a =>
      ⟨sys.store, setSess sys.session u (ae_description a text)⟩
    | _ => sys
  | Op.aeSelectCb u data =>
    match sys.session u with
    | Session.aeSelect a de sel =>
      let r := ae_select_callback sys.store u a de sel data
      ⟨r.1, setSess sys.session u r.2.1⟩
    | _ => sys
  | Op.mpStart u =>
    ⟨sys.store, setSess sys.session u
      (if (get_user sys.store u).isSome && !(get_pending_debts_for_user sys.store u).isEmpty
       then Session.mpSelect else Session.sNone)⟩
  | Op.mpText u text =>
    match sys.session u with
    | Session.mpSelect =>
      let r := mp_select sys.store u text
      ⟨r.1, setSess sys.session u r.2.1⟩
    | _ => sys
  | Op.cpStart u =>
    ⟨sys.store, setSess sys.session u
      (if !(get_pending_confirmations_for_spender sys.store u).isEmpty
       then Session.cpSelect else Session.sNone)⟩
  | Op.cpText u text =>
    match sys.session u with
    | Session.cpSelect =>
      let r := cp_select sys.store u text
      ⟨r.1, setSess sys.session u r.2.1⟩
    | Session.cpDebtor txId =>
      let r := cp_debtor sys.store txId text
      ⟨r.1, setSess sys.session u r.2.1⟩
    | _ => sys

/-- The empty deployment: no users, no rows, the id sequence at 1, nobody
in a conversation. -/
def sys0 : Sys :=
  ⟨⟨[], [], [], 1⟩, fun _ => Session.sNone⟩

/-- Reachability of a system state from the empty deployment under the
sequential step semantics. -/
inductive Reach : Sys → Prop
  | init : Reach sys0
  | next (sys : Sys) (op : Op) : Reach sys → Reach (step sys op)

/-! ## The mark race of src/main.py:204-234 under interleaving

`mp_select` suspends at each `await`; with two concurrent invocations for
the same (transaction, debtor) pair the two pending-checks
(src/main.py:212-220) can both read the store before either write
(src/main.py:221) commits.  `mp_mark_race` is that interleaving. -/

/-- The pending-check phase of mp_select, evaluated against the store state
current at the moment of the read. -/
def mp_check (s : Store) (u txId : ℕ) : Bool :=
  ((get_pending_debts_for_user s u).find? (fun t => t.id == txId)).isSome

/-- Two concurrent `mp_select` invocations for the same (txId, u) pair,
interleaved so that both checks precede both writes.  Returns the final
store and each invocation's success flag ("Marked as paid!" reply). -/
def mp_mark_race (s : Store) (u txId : ℕ) : Store × Bool × Bool :=
  let ok1 := mp_check s u txId
  let ok2 := mp_check s u txId
  let s1 := if ok1 then mark_debt_as_marked s txId u else s
  let s2 := if ok2 then mark_debt_as_marked s1 txId u else s1
  (s2, ok1, ok2)

/-! ## Basic lemmas about the embedded operations -/

/-- One legal forward move of a debt status: stay, pending to marked, or
marked to confirmed. -/
def statusStep : Status → Status → Bool
  | Status.pending, Status.pending => true
  | Status.pending, Status.marked => true
  | Status.marked, Status.marked => true
  | Status.marked, Status.confirmed => true
  | Status.confirmed, Status.confirmed => true
  | _, _ => false

lemma statusStep_refl (a : Status) : statusStep a a = true := by
  cases a <;> rfl

lemma markUpd_key (txId u : ℕ) (d : Debt) : debtKey (markUpd txId u d) = debtKey d := by
  unfold markUpd debtKey
  split <;> rfl

lemma confirmUpd_key (txId u : ℕ) (d : Debt) : debtKey (confirmUpd txId u d) = debtKey d := by
  unfold confirmUpd debtKey
  split <;> rfl

lemma markUpd_txid (txId u : ℕ) (d : Debt) :
    (markUpd txId u d).transaction_id = d.transaction_id := by
  unfold markUpd
  split <;> rfl

lemma confirmUpd_txid (txId u : ℕ) (d : Debt) :
    (confirmUpd txId u d).transaction_id = d.transaction_id := by
  unfold confirmUpd
  split <;> rfl

lemma map_key_markUpd (txId u : ℕ) (l : List Debt) :
    (l.map (markUpd txId u)).map debtKey = l.map debtKey := by
  induction l with
  | nil => rfl
  | cons d l ih => simp only [List.map_cons, markUpd_key, ih]

lemma map_key_confirmUpd (txId u : ℕ) (l : List Debt) :
    (l.map (confirmUpd txId u)).map debtKey = l.map debtKey := by
  induction l with
  | nil => rfl
  | cons d l ih => simp only [List.map_cons, confirmUpd_key, ih]

lemma nodup_snoc {α : Type _} (l : List α) (x : α) (h : l.Nodup) (hx : x ∉ l) :
    (l ++ [x]).Nodup := by
  rw [List.nodup_append]
  refine ⟨h, List.nodup_singleton x, ?_⟩
  intro a ha hb
  rw [List.mem_singleton] at hb
  subst hb
  exact hx ha

/-- Unpacking membership in `get_pending_debts_for_user`. -/
lemma mem_pending_debts {s : Store} {u : ℕ} {t : Txn}
    (h : t ∈ get_pending_debts_for_user s u) :
    ∃ d ∈ s.debts, d.debtor_id = u ∧ d.status = Status.pending ∧
      d.transaction_id = t.id ∧ t ∈ s.transactions := by
  unfold get_pending_debts_for_user at h
  rw [List.mem_filterMap] at h
  obtain ⟨d, hd, hfind⟩ := h
  rw [List.mem_filter] at hd
  obtain ⟨hdm, hcond⟩ := hd
  simp only [Bool.and_eq_true, beq_iff_eq] at hcond
  have hmem := List.mem_of_find?_eq_some hfind
  have hp := List.find?_some hfind
  simp only [beq_iff_eq] at hp
  exact ⟨d, hdm, hcond.1, hcond.2, hp.symm, hmem⟩

/-- Unpacking membership in `get_marked_debtors`. -/
lemma mem_marked_debtors {s : Store} {txId d : ℕ}
    (h : d ∈ get_marked_debtors s txId) :
    ∃ r ∈ s.debts, r.transaction_id = txId ∧ r.debtor_id = d ∧ r.status = Status.marked := by
  unfold get_marked_debtors at h
  rw [List.mem_map] at h
  obtain ⟨r, hr, hrd⟩ := h
  rw [List.mem_filter] at hr
  obtain ⟨hrm, hcond⟩ := hr
  simp only [Bool.and_eq_true, beq_iff_eq] at hcond
  exact ⟨r, hrm, hcond.1, hrd, hcond.2⟩

/-- Membership in `get_pending_confirmations_for_spender` implies the row is
the caller's own transaction. -/
lemma mem_pending_conf {s : Store} {u : ℕ} {t : Txn}
    (h : t ∈ get_pending_confirmations_for_spender s u) :
    t ∈ s.transactions ∧ t.spender = u := by
  unfold get_pending_confirmations_for_spender at h
  rw [List.mem_filter] at h
  obtain ⟨hm, hcond⟩ := h
  simp only [Bool.and_eq_true, beq_iff_eq] at hcond
  exact ⟨hm, hcond.1⟩

/-- Filtering by a predicate fixed by a row update commutes away the update:
rows satisfying the predicate are untouched by it and the predicate is
insensitive to it. -/
lemma filter_map_upd (l : List Debt) (p : Debt → Bool) (f : Debt → Debt)
    (hf : ∀ d, p d = true → f d = d) (hp : ∀ d, p (f d) = p d) :
    (l.map f).filter p = l.filter p := by
  induction l with
  | nil => rfl
  | cons d l ih =>
    rw [List.map_cons]
    cases hpd : p d with
    | true =>
      rw [List.filter_cons_of_pos (by rw [hp d, hpd]),
          List.filter_cons_of_pos hpd, hf d hpd, ih]
    | false =>
      rw [List.filter_cons_of_neg (by simp [hp d, hpd]),
          List.filter_cons_of_neg (by simp [hpd]), ih]

/-- After `mark_debt_as_marked s txId u`, the (txId, u) pair no longer shows
among the pending debts of `u`. -/
lemma pending_after_mark (s : Store) (u txId : ℕ) :
    (get_pending_debts_for_user (mark_debt_as_marked s txId u) u).find?
      (fun t => t.id == txId) = none := by
  rw [List.find?_eq_none]
  intro t ht
  obtain ⟨d, hd, hdu, hst, htx, _⟩ := mem_pending_debts ht
  rw [show (mark_debt_as_marked s txId u).debts = s.debts.map (markUpd txId u) from rfl,
      List.mem_map] at hd
  obtain ⟨d0, _, hfd⟩ := hd
  simp only [beq_iff_eq]
  intro hid
  by_cases hc : d0.transaction_id = txId ∧ d0.debtor_id = u
  · rw [markUpd, if_pos hc] at hfd
    rw [← hfd] at hst
    exact Status.noConfusion hst
  · rw [markUpd, if_neg hc] at hfd
    subst hfd
    exact hc ⟨htx.trans hid, hdu⟩

/-! ## System invariants and the shape of one step -/

/-- Store-level invariants of every reachable state: transaction ids are
below the id sequence and pairwise distinct, debts point below the id
sequence, and debt (transaction, debtor) keys are pairwise distinct. -/
structure SInv (st : Store) : Prop where
  txBound : ∀ t ∈ st.transactions, t.id < st.nextId
  debtBound : ∀ d ∈ st.debts, d.transaction_id < st.nextId
  txNodup : (st.transactions.map Txn.id).Nodup
  keyNodup : (st.debts.map debtKey).Nodup

/-- Consistency of one user's session value with the store: an in-progress
selection has no duplicates, and a stored cp_tx_id names one of the caller's
own transactions (it was validated by `cp_select`). -/
def sessOk (st : Store) (u : ℕ) : Session → Prop
  | Session.aeSelect _ _ sel => sel.Nodup
  | Session.cpDebtor txId => ∃ t ∈ st.transactions, t.id = txId ∧ t.spender = u
  | _ => True

/-- The full system invariant. -/
def Inv (sys : Sys) : Prop :=
  SInv sys.store ∧ ∀ u, sessOk sys.store u (sys.session u)

/-- The four shapes a single step can give the store: ledger untouched
(possibly a users-only change), a commit of a duplicate-free selection, a
mark of a pair that has a pending row, or a confirm of a pair that has a
marked row. -/
inductive Evo (s : Store) : Store → Prop
  | ledgerSame (s' : Store) (htx : s'.transactions = s.transactions)
      (hd : s'.debts = s.debts) (hn : s'.nextId = s.nextId) : Evo s s'
  | commit (sp : ℕ) (a : ℚ) (de : String) (sh : ℚ) (ids : List ℕ) (hnd : ids.Nodup) :
      Evo s (add_transaction s sp a de sh ids).1
  | marked (txId u : ℕ)
      (hp : ∃ d ∈ s.debts, d.transaction_id = txId ∧ d.debtor_id = u ∧
        d.status = Status.pending) :
      Evo s (mark_debt_as_marked s txId u)
  | confirmed (txId u : ℕ)
      (hm : ∃ d ∈ s.debts, d.transaction_id = txId ∧ d.debtor_id = u ∧
        d.status = Status.marked) :
      Evo s (confirm_debt s txId u)

lemma sinv_of_eq {s s' : Store} (htx : s'.transactions = s.transactions)
    (hd : s'.debts = s.debts) (hn : s'.nextId = s.nextId) (hI : SInv s) : SInv s' := by
  refine ⟨?_, ?_, ?_, ?_⟩
  · rw [htx, hn]; exact hI.txBound
  · rw [hd, hn]; exact hI.debtBound
  · rw [htx]; exact hI.txNodup
  · rw [hd]; exact hI.keyNodup

lemma sinv_mark (s : Store) (txId u : ℕ) (hI : SInv s) :
    SInv (mark_debt_as_marked s txId u) := by
  refine ⟨hI.txBound, ?_, hI.txNodup, ?_⟩
  · intro d hd
    rw [show (mark_debt_as_marked s txId u).debts = s.debts.map (markUpd txId u) from rfl,
        List.mem_map] at hd
    obtain ⟨d0, hd0, hfd⟩ := hd
    rw [← hfd, markUpd_txid]
    exact hI.debtBound d0 hd0
  · rw [show (mark_debt_as_marked s txId u).debts = s.debts.map (markUpd txId u) from rfl,
        map_key_markUpd]
    exact hI.keyNodup

lemma sinv_confirm (s : Store) (txId u : ℕ) (hI : SInv s) :
    SInv (confirm_debt s txId u) := by
  refine ⟨hI.txBound, ?_, hI.txNodup, ?_⟩
  · intro d hd
    rw [show (confirm_debt s txId u).debts = s.debts.map (confirmUpd txId u) from rfl,
        List.mem_map] at hd
    obtain ⟨d0, hd0, hfd⟩ := hd
    rw [← hfd, confirmUpd_txid]
    exact hI.debtBound d0 hd0
  · rw [show (confirm_debt s txId u).debts = s.debts.map (confirmUpd txId u) from rfl,
        map_key_confirmUpd]
    exact hI.keyNodup

lemma sinv_commit (s : Store) (sp : ℕ) (a : ℚ) (de : String) (sh : ℚ)
    (ids : List ℕ) (hnd : ids.Nodup) (hI : SInv s) :
    SInv (add_transaction s sp a de sh ids).1 := by
  refine ⟨?_, ?_, ?_, ?_⟩
  · intro t ht
    rw [show (add_transaction s sp a de sh ids).1.transactions
          = s.transactions ++ [⟨s.nextId, sp, a, de, sh⟩] from rfl,
        List.mem_append] at ht
    cases ht with
    | inl h => exact Nat.lt_succ_of_lt (hI.txBound t h)
    | inr h =>
      rw [List.mem_singleton] at h
      subst h
      exact Nat.lt_succ_self _
  · intro d hd
    rw [show (add_transaction s sp a de sh ids).1.debts
          = s.debts ++ ids.map (fun d => ⟨s.nextId, d, Status.pending⟩) from rfl,
        List.mem_append] at hd
    cases hd with
    | inl h => exact Nat.lt_succ_of_lt (hI.debtBound d h)
    | inr h =>
      rw [List.mem_map] at h
      obtain ⟨x, _, hx⟩ := h
      rw [← hx]
      exact Nat.lt_succ_self _
  · rw [show (add_transaction s sp a de sh ids).1.transactions
          = s.transactions ++ [⟨s.nextId, sp, a, de, sh⟩] from rfl,
        List.map_append]
    refine nodup_snoc _ _ hI.txNodup ?_
    intro hmem
    rw [List.mem_map] at hmem
    obtain ⟨t, ht, hid⟩ := hmem
    exact absurd (hI.txBound t ht) (by rw [hid]; exact Nat.lt_irrefl _)
  · rw [show (add_transaction s sp a de sh ids).1.debts
          = s.debts ++ ids.map (fun d => ⟨s.nextId, d, Status.pending⟩) from rfl,
        List.map_append, List.map_map, List.nodup_append]
    refine ⟨hI.keyNodup, ?_, ?_⟩
    · refine List.Nodup.map ?_ hnd
      intro x y hxy
      simpa [debtKey] using hxy
    · intro k hk hk'
      rw [List.mem_map] at hk hk'
      obtain ⟨d, hd, hkd⟩ := hk
      obtain ⟨x, _, hkx⟩ := hk'
      have h1 : k.1 < s.nextId := by
        rw [← hkd]
        exact hI.debtBound d hd
      have h2 : k.1 = s.nextId := by
        rw [← hkx]
        rfl
      exact absurd h1 (by rw [h2]; exact Nat.lt_irrefl _)

lemma sessOk_of_subset {s s' : Store}
    (hsub : ∀ t ∈ s.transactions, t ∈ s'.transactions) (u : ℕ) (x : Session)
    (h : sessOk s u x) : sessOk s' u x := by
  cases x with
  | cpDebtor txId =>
    obtain ⟨t, ht, h1, h2⟩ := h
    exact ⟨t, hsub t ht, h1, h2⟩
  | aeSelect a de sel => exact h
  | sNone => trivial
  | aeAmount => trivial
  | aeDescription a => trivial
  | mpSelect => trivial
  | cpSelect => trivial

/-- Every reachable-step store change only extends the transaction list. -/
lemma evo_tx_subset {s s' : Store} (he : Evo s s') :
    ∀ t ∈ s.transactions, t ∈ s'.transactions := by
  intro t ht
  cases he with
  | ledgerSame s' htx hd hn => rw [htx]; exact ht
  | commit sp a de sh ids hnd =>
    rw [show (add_transaction s sp a de sh ids).1.transactions
          = s.transactions ++ [⟨s.nextId, sp, a, de, sh⟩] from rfl]
    exact List.mem_append_left _ ht
  | marked txId u hp => exact ht
  | confirmed txId u hm => exact ht

lemma sessOk_setSess {st : Store} {f : ℕ → Session} {u : ℕ} {x : Session}
    (hold : ∀ v, sessOk st v (f v)) (hx : sessOk st u x) :
    ∀ v, sessOk st v (setSess f u x v) := by
  intro v
  unfold setSess
  by_cases hv : v = u
  · rw [if_pos hv]
    subst hv
    exact hx
  · rw [if_neg hv]
    exact hold v

lemma inv_mk {sys : Sys} {s' : Store} {u : ℕ} {x : Session}
    (hI : Inv sys) (hS : SInv s') (he : Evo sys.store s') (hx : sessOk s' u x) :
    Inv ⟨s', setSess sys.session u x⟩ ∧ Evo sys.store s' :=
  ⟨⟨hS, sessOk_setSess
      (fun v => sessOk_of_subset (evo_tx_subset he) v _ (hI.2 v)) hx⟩, he⟩

lemma sessOk_ae_amount (st : Store) (u : ℕ) (text : String) :
    sessOk st u (ae_amount text) := by
  unfold ae_amount
  cases pyFloat (stripCommas (pyStrip text)) <;> trivial

lemma evo_refl (s : Store) : Evo s s :=
  Evo.ledgerSame s rfl rfl rfl

lemma upsert_transactions (s : Store) (u : ℕ) (name : String) :
    (create_or_update_user s u name).transactions = s.transactions := by
  unfold create_or_update_user
  split <;> rfl

lemma upsert_debts (s : Store) (u : ℕ) (name : String) :
    (create_or_update_user s u name).debts = s.debts := by
  unfold create_or_update_user
  split <;> rfl

lemma upsert_nextId (s : Store) (u : ℕ) (name : String) :
    (create_or_update_user s u name).nextId = s.nextId := by
  unfold create_or_update_user
  split <;> rfl

/-- Every step preserves the system invariant, and changes the store only in
one of the four `Evo` shapes. -/
lemma step_main (sys : Sys) (op : Op) (hI : Inv sys) :
    Inv (step sys op) ∧ Evo sys.store (step sys op).store := by
  cases op with
  | register u name =>
    have he : Evo sys.store (create_or_update_user sys.store u name) :=
      Evo.ledgerSame _ (upsert_transactions _ _ _) (upsert_debts _ _ _) (upsert_nextId _ _ _)
    exact ⟨⟨sinv_of_eq (upsert_transactions _ _ _) (upsert_debts _ _ _)
        (upsert_nextId _ _ _) hI.1,
      fun v => sessOk_of_subset (evo_tx_subset he) v _ (hI.2 v)⟩, he⟩
  | aeStart u =>
    exact inv_mk hI hI.1 (evo_refl _) (by split <;> trivial)
  | aeText u text =>
    cases hs : sys.session u with
    | aeAmount =>
      simp only [step, hs]
      exact inv_mk hI hI.1 (evo_refl _) (sessOk_ae_amount _ _ _)
    | aeDescription a =>
      simp only [step, hs]
      exact inv_mk hI hI.1 (evo_refl _) List.nodup_nil
    | sNone => simp only [step, hs]; exact ⟨hI, evo_refl _⟩
    | aeSelect a de sel => simp only [step, hs]; exact ⟨hI, evo_refl _⟩
    | mpSelect => simp only [step, hs]; exact ⟨hI, evo_refl _⟩
    | cpSelect => simp only [step, hs]; exact ⟨hI, evo_refl _⟩
    | cpDebtor txId => simp only [step, hs]; exact ⟨hI, evo_refl _⟩
  | aeSelectCb u data =>
    cases hs : sys.session u with
    | aeSelect a de sel =>
      have hnd : sel.Nodup := by
        have := hI.2 u
        rw [hs] at this
        exact this
      simp only [step, hs]
      by_cases hdone : data = "select_done"
      · simp only [ae_select_callback, if_pos hdone]
        cases hsel : sel.isEmpty with
        | true =>
          exact inv_mk hI hI.1 (evo_refl _) trivial
        | false =>
          exact inv_mk hI (sinv_commit _ _ _ _ _ _ hnd hI.1)
            (Evo.commit _ _ _ _ _ hnd) trivial
      · simp only [ae_select_callback, if_neg hdone]
        cases hget : (splitOnChar '_' data.data).get? 1 with
        | none =>
          exact inv_mk hI hI.1 (evo_refl _) hnd
        | some cs =>
          dsimp only
          cases hint : pyIntChars? cs with
          | none =>
            exact inv_mk hI hI.1 (evo_refl _) hnd
          | some uid =>
            dsimp only
            refine inv_mk hI hI.1 (evo_refl _) ?_
            show (if uid ∈ sel then sel else sel ++ [uid]).Nodup
            by_cases hmem : uid ∈ sel
            · rw [if_pos hmem]; exact hnd
            · rw [if_neg hmem]; exact nodup_snoc _ _ hnd hmem
    | sNone => simp only [step, hs]; exact ⟨hI, evo_refl _⟩
    | aeAmount => simp only [step, hs]; exact ⟨hI, evo_refl _⟩
    | aeDescription a => simp only [step, hs]; exact ⟨hI, evo_refl _⟩
    | mpSelect => simp only [step, hs]; exact ⟨hI, evo_refl _⟩
    | cpSelect => simp only [step, hs]; exact ⟨hI, evo_refl _⟩
    | cpDebtor txId => simp only [step, hs]; exact ⟨hI, evo_refl _⟩
  | mpStart u =>
    exact inv_mk hI hI.1 (evo_refl _) (by split <;> trivial)
  | mpText u text =>
    cases hs : sys.session u with
    | mpSelect =>
      simp only [step, hs]
      cases hint : pyInt? (pyStrip text) with
      | none =>
        simp only [mp_select, hint]
        exact inv_mk hI hI.1 (evo_refl _) trivial
      | some txId =>
        cases hfind : (get_pending_debts_for_user sys.store u).find? (fun t => t.id == txId) with
        | none =>
          simp only [mp_select, hint, hfind]
          exact inv_mk hI hI.1 (evo_refl _) trivial
        | some t0 =>
          simp only [mp_select, hint, hfind]
          have hidx : t0.id = txId := by
            have := List.find?_some hfind
            simpa [beq_iff_eq] using this
          obtain ⟨d, hd, hdu, hst, htx, _⟩ :=
            mem_pending_debts (List.mem_of_find?_eq_some hfind)
          refine inv_mk hI (sinv_mark _ _ _ hI.1)
            (Evo.marked txId u ⟨d, hd, htx.trans hidx, hdu, hst⟩) trivial
    | sNone => simp only [step, hs]; exact ⟨hI, evo_refl _⟩
    | aeAmount => simp only [step, hs]; exact ⟨hI, evo_refl _⟩
    | aeDescription a => simp only [step, hs]; exact ⟨hI, evo_refl _⟩
    | aeSelect a de sel => simp only [step, hs]; exact ⟨hI, evo_refl _⟩
    | cpSelect => simp only [step, hs]; exact ⟨hI, evo_refl _⟩
    | cpDebtor txId => simp only [step, hs]; exact ⟨hI, evo_refl _⟩
  | cpStart u =>
    exact inv_mk hI hI.1 (evo_refl _) (by split <;> trivial)
  | cpText u text =>
    cases hs : sys.session u with
    | cpSelect =>
      simp only [step, hs]
      cases hint : pyInt? (pyStrip text) with
      | none =>
        simp only [cp_select, hint]
        exact inv_mk hI hI.1 (evo_refl _) trivial
      | some txId =>
        cases hfind : (get_pending_confirmations_for_spender sys.store u).find?
            (fun t => t.id == txId) with
        | none =>
          simp only [cp_select, hint, hfind]
          exact inv_mk hI hI.1 (evo_refl _) trivial
        | some t0 =>
          have hidx : t0.id = txId := by
            have := List.find?_some hfind
            simpa [beq_iff_eq] using this
          have hconf := mem_pending_conf (List.mem_of_find?_eq_some hfind)
          cases hmk : get_marked_debtors sys.store txId with
          | nil =>
            simp only [cp_select, hint, hfind, hmk]
            exact inv_mk hI hI.1 (evo_refl _) trivial
          | cons d tail =>
            cases tail with
            | nil =>
              simp only [cp_select, hint, hfind, hmk]
              obtain ⟨r, hr, h1, h2, h3⟩ :=
                mem_marked_debtors (by rw [hmk]; exact List.mem_singleton_self d)
              exact inv_mk hI (sinv_confirm _ _ _ hI.1)
                (Evo.confirmed txId d ⟨r, hr, h1, h2, h3⟩) trivial
            | cons d' rest =>
              simp only [cp_select, hint, hfind, hmk]
              exact inv_mk hI hI.1 (evo_refl _) ⟨t0, hconf.1, hidx, hconf.2⟩
    | cpDebtor txId =>
      simp only [step, hs]
      have hold : ∃ t ∈ sys.store.transactions, t.id = txId ∧ t.spender = u := by
        have := hI.2 u
        rw [hs] at this
        exact this
      cases hfind : (get_marked_debtors sys.store txId).find?
          (fun d => (get_user sys.store d).map lowerStr
            == some (lowerStr (pyStrip text))) with
      | none =>
        simp only [cp_debtor, hfind]
        exact inv_mk hI hI.1 (evo_refl _) hold
      | some d =>
        simp only [cp_debtor, hfind]
        obtain ⟨r, hr, h1, h2, h3⟩ :=
          mem_marked_debtors (List.mem_of_find?_eq_some hfind)
        exact inv_mk hI (sinv_confirm _ _ _ hI.1)
          (Evo.confirmed txId d ⟨r, hr, h1, h2, h3⟩) trivial
    | sNone => simp only [step, hs]; exact ⟨hI, evo_refl _⟩
    | aeAmount => simp only [step, hs]; exact ⟨hI, evo_refl _⟩
    | aeDescription a => simp only [step, hs]; exact ⟨hI, evo_refl _⟩
    | aeSelect a de sel => simp only [step, hs]; exact ⟨hI, evo_refl _⟩
    | mpSelect => simp only [step, hs]; exact ⟨hI, evo_refl _⟩

/-- The empty deployment satisfies the invariant. -/
lemma inv_sys0 : Inv sys0 := by
  refine ⟨⟨?_, ?_, ?_, ?_⟩, ?_⟩
  · intro t ht; exact absurd ht (List.not_mem_nil t)
  · intro d hd; exact absurd hd (List.not_mem_nil d)
  · exact List.nodup_nil
  · exact List.nodup_nil
  · intro u; trivial

/-- Every reachable state satisfies the invariant. -/
lemma reach_inv (sys : Sys) (h : Reach sys) : Inv sys := by
  induction h with
  | init => exact inv_sys0
  | next sys op _ ih => exact (step_main sys op ih).1

/-- Under distinct debt keys, each of the four step shapes moves every
existing debt row forward: the key is unchanged and the status makes one
legal move (stays, pending to marked, or marked to confirmed). -/
lemma evo_debt_step {s s' : Store} (hN : (s.debts.map debtKey).Nodup)
    (he : Evo s s') (i : ℕ) (h : i < s.debts.length) (h' : i < s'.debts.length) :
    debtKey s'.debts[i] = debtKey s.debts[i] ∧
    statusStep s.debts[i].status s'.debts[i].status = true := by
  cases he with
  | ledgerSame s' htx hd hn =>
    have hg : s'.debts[i] = s.debts[i] := by
      simp only [hd]
    rw [hg]
    exact ⟨rfl, statusStep_refl _⟩
  | commit sp a de sh ids hnd =>
    have hg : (add_transaction s sp a de sh ids).1.debts[i] = s.debts[i] :=
      List.getElem_append_left ..
    rw [hg]
    exact ⟨rfl, statusStep_refl _⟩
  | marked txId u hp =>
    have hg : (mark_debt_as_marked s txId u).debts[i] = markUpd txId u s.debts[i] :=
      List.getElem_map ..
    rw [hg]
    refine ⟨markUpd_key .., ?_⟩
    by_cases hc : s.debts[i].transaction_id = txId ∧ s.debts[i].debtor_id = u
    · obtain ⟨d0, hd0, h1, h2, h3⟩ := hp
      have heq : s.debts[i] = d0 := by
        refine List.inj_on_of_nodup_map hN (List.getElem_mem ..) hd0 ?_
        show debtKey s.debts[i] = debtKey d0
        rw [show debtKey s.debts[i] = (txId, u) by rw [debtKey, hc.1, hc.2],
            show debtKey d0 = (txId, u) by rw [debtKey, h1, h2]]
      rw [markUpd, if_pos hc, heq, h3]
      rfl
    · rw [markUpd, if_neg hc]
      exact statusStep_refl _
  | confirmed txId u hm =>
    have hg : (confirm_debt s txId u).debts[i] = confirmUpd txId u s.debts[i] :=
      List.getElem_map ..
    rw [hg]
    refine ⟨confirmUpd_key .., ?_⟩
    by_cases hc : s.debts[i].transaction_id = txId ∧ s.debts[i].debtor_id = u
    · obtain ⟨d0, hd0, h1, h2, h3⟩ := hm
      have heq : s.debts[i] = d0 := by
        refine List.inj_on_of_nodup_map hN (List.getElem_mem ..) hd0 ?_
        show debtKey s.debts[i] = debtKey d0
        rw [show debtKey s.debts[i] = (txId, u) by rw [debtKey, hc.1, hc.2],
            show debtKey d0 = (txId, u) by rw [debtKey, h1, h2]]
      rw [confirmUpd, if_pos hc, heq, h3]
      rfl
    · rw [confirmUpd, if_neg hc]
      exact statusStep_refl _

/-- Filtering by transaction id is unaffected by a confirm of a different
transaction. -/
lemma filter_confirm_ne (s : Store) (txId u tid : ℕ) (hne : txId ≠ tid) :
    (confirm_debt s txId u).debts.filter (fun d => d.transaction_id == tid) =
      s.debts.filter (fun d => d.transaction_id == tid) := by
  apply filter_map_upd
  · intro d hp
    simp only [beq_iff_eq] at hp
    rw [confirmUpd, if_neg]
    intro hc
    exact hne (hc.1 ▸ hp)
  · intro d
    simp only [confirmUpd_txid]

/-- A fresh transaction appended at the end is the one found when searching
for its id. -/
lemma find?_fresh_append (l : List Txn) (nt : Txn)
    (hfresh : ∀ t ∈ l, t.id ≠ nt.id) :
    (l ++ [nt]).find? (fun t => t.id == nt.id) = some nt := by
  induction l with
  | nil =>
    rw [List.nil_append]
    exact List.find?_cons_of_pos _ (by simp)
  | cons t l ih =>
    rw [List.cons_append, List.find?_cons_of_neg]
    · exact ih (fun t' ht' => hfresh t' (List.mem_cons_of_mem _ ht'))
    · simp only [beq_iff_eq]
      exact hfresh t (List.mem_cons_self _ _)

/-- The success branches of `insertDebts`: either some insert raised, or all
debts were appended in order. -/
lemma insertDebts_shape (txId : ℕ) (failAt : Option ℕ) :
    ∀ (ids : List ℕ) (pos : ℕ) (s : Store),
      (∃ s1, insertDebts txId failAt ids pos s = Except.error s1) ∨
      insertDebts txId failAt ids pos s =
        Except.ok { s with debts := s.debts ++ ids.map (fun d => ⟨txId, d, Status.pending⟩) } := by
  intro ids
  induction ids with
  | nil =>
    intro pos s
    right
    simp [insertDebts]
  | cons d rest ih =>
    intro pos s
    by_cases hf : failAt = some pos
    · exact Or.inl ⟨s, by simp [insertDebts, hf]⟩
    · cases ih (pos + 1) { s with debts := s.debts ++ [⟨txId, d, Status.pending⟩] } with
      | inl h =>
        obtain ⟨s1, hs1⟩ := h
        exact Or.inl ⟨s1, by simp only [insertDebts, if_neg hf]; exact hs1⟩
      | inr h =>
        right
        simp only [insertDebts, if_neg hf]
        rw [h]
        simp [List.append_assoc]

/-- With no failure point every insert succeeds. -/
lemma insertDebts_none (txId : ℕ) :
    ∀ (ids : List ℕ) (pos : ℕ) (s : Store),
      insertDebts txId none ids pos s =
        Except.ok { s with debts := s.debts ++ ids.map (fun d => ⟨txId, d, Status.pending⟩) } := by
  intro ids
  induction ids with
  | nil =>
    intro pos s
    simp [insertDebts]
  | cons d rest ih =>
    intro pos s
    simp only [insertDebts, if_neg (by simp : ¬(none : Option ℕ) = some pos)]
    rw [ih (pos + 1)]
    simp [List.append_assoc]

/-! ## A concrete reachable run, used by the witnesses -/

def sysA : Sys := step sys0 (Op.register 1 "ada")

def sysB : Sys := step sysA (Op.register 2 "bob")

def sysC : Sys := step sysB (Op.aeStart 1)

def sysD : Sys := step sysC (Op.aeText 1 "1,000")

def sysE : Sys := step sysD (Op.aeText 1 "dinner")

def sysF : Sys := step sysE (Op.aeSelectCb 1 "select_2")

def sysG : Sys := step sysF (Op.aeSelectCb 1 "select_done")

def sysH : Sys := step sysG (Op.mpStart 2)

lemma reachC : Reach sysC :=
  Reach.next sysB (Op.aeStart 1)
    (Reach.next sysA (Op.register 2 "bob")
      (Reach.next sys0 (Op.register 1 "ada") Reach.init))

lemma reachF : Reach sysF :=
  Reach.next sysE (Op.aeSelectCb 1 "select_2")
    (Reach.next sysD (Op.aeText 1 "dinner")
      (Reach.next sysC (Op.aeText 1 "1,000") reachC))

lemma reachH : Reach sysH :=
  Reach.next sysG (Op.mpStart 2)
    (Reach.next sysF (Op.aeSelectCb 1 "select_done") reachF)

/-- The empty store. -/
def storeEmpty : Store := ⟨[], [], [], 1⟩

/-! ## The claims -/

/-- C1 counterexample: the claim's residual policy does not hold of the
code.  At amount 10 with debtors {1,2,3} the code's split gives every
debtor the identical share 10/3, which is not a whole number of minor
currency units, and differs from the spec's round-half-up policy (3.34 to
the designated lowest identifier, 3.33 to the others); so no division
residual is assigned to any designated participant. -/
theorem C1_split_counterexample :
    share_calc 10 3 = 10 / 3 ∧
    centMultiple (share_calc 10 3) = false ∧
    split_spec 10 [1, 2, 3] 1 = 334 / 100 ∧
    split_spec 10 [1, 2, 3] 2 = 333 / 100 ∧
    share_calc 10 3 ≠ split_spec 10 [1, 2, 3] 1 ∧
    share_calc 10 3 ≠ split_spec 10 [1, 2, 3] 2 :=
  ⟨by decide, by decide, by decide, by decide, by decide, by decide⟩

/-- C1 (amended): in exact arithmetic the code's uniform per-debtor share
`amount / n` sums back to the amount exactly and is positive whenever the
amount is; no rounding and no residual assignment takes place (the source
computes the same formula in floating point). -/
theorem C1_split_amended (amount : ℚ) (n : ℕ) (hn : n ≠ 0) (ha : 0 < amount) :
    (n : ℚ) * share_calc amount n = amount ∧ 0 < share_calc amount n := by
  have hq : (n : ℚ) ≠ 0 := Nat.cast_ne_zero.mpr hn
  constructor
  · rw [share_calc, mul_comm]
    exact div_mul_cancel₀ amount hq
  · exact div_pos ha (by exact_mod_cast Nat.pos_of_ne_zero hn)

theorem C1_split_amended_witness :
    ((3 : ℕ) : ℚ) * share_calc 10 3 = 10 ∧ 0 < share_calc 10 3 :=
  C1_split_amended 10 3 (by decide) (by norm_num)

/-- C2 (confirmed): `add_transaction` is atomic.  Whatever the failure
point, the caller observes either the untouched original store with no
transaction id, or the full commit carrying the transaction row and every
debt row together; a run with no failure always commits. -/
theorem C2_create_transaction_atomic (s : Store) (sp : ℕ) (a : ℚ) (de : String)
    (sh : ℚ) (ids : List ℕ) (failAt : Option ℕ) :
    (add_transaction_tx s sp a de sh ids failAt = (s, none) ∨
     add_transaction_tx s sp a de sh ids failAt =
       ((add_transaction s sp a de sh ids).1, some (add_transaction s sp a de sh ids).2)) ∧
    (failAt = none →
     add_transaction_tx s sp a de sh ids failAt =
       ((add_transaction s sp a de sh ids).1, some (add_transaction s sp a de sh ids).2)) := by
  constructor
  · by_cases h0 : failAt = some 0
    · left
      simp [add_transaction_tx, add_transaction_attempt, h0]
    · cases insertDebts_shape s.nextId failAt ids 1
        { s with
          transactions := s.transactions ++ [⟨s.nextId, sp, a, de, sh⟩],
          nextId := s.nextId + 1 } with
      | inl h =>
        obtain ⟨s1, hs1⟩ := h
        left
        simp [add_transaction_tx, add_transaction_attempt, h0, hs1, Except.map]
      | inr h =>
        right
        simp [add_transaction_tx, add_transaction_attempt, h0, h, Except.map, add_transaction]
  · intro h0
    subst h0
    have h := insertDebts_none s.nextId ids 1
      { s with
        transactions := s.transactions ++ [⟨s.nextId, sp, a, de, sh⟩],
        nextId := s.nextId + 1 }
    simp [add_transaction_tx, add_transaction_attempt, h, Except.map, add_transaction]

theorem C2_create_transaction_atomic_witness :
    (add_transaction_tx storeEmpty 1 60 "suya" 30 [2, 3] (some 2) = (storeEmpty, none) ∨
     add_transaction_tx storeEmpty 1 60 "suya" 30 [2, 3] (some 2) =
       ((add_transaction storeEmpty 1 60 "suya" 30 [2, 3]).1,
        some (add_transaction storeEmpty 1 60 "suya" 30 [2, 3]).2)) ∧
    ((some 2 : Option ℕ) = none →
     add_transaction_tx storeEmpty 1 60 "suya" 30 [2, 3] (some 2) =
       ((add_transaction storeEmpty 1 60 "suya" 30 [2, 3]).1,
        some (add_transaction storeEmpty 1 60 "suya" 30 [2, 3]).2)) :=
  C2_create_transaction_atomic storeEmpty 1 60 "suya" 30 [2, 3] (some 2)

/-- C3 (confirmed): along every reachable sequence of operations every debt
row only moves forward.  One step never changes a row's (transaction,
debtor) key and steps its status only as pending to marked or marked to
confirmed, or leaves it; in particular no operation moves a debt out of
marked or confirmed back to an earlier status. -/
theorem C3_status_monotone (sys : Sys) (hR : Reach sys) (op : Op) (i : ℕ)
    (h : i < sys.store.debts.length) (h' : i < (step sys op).store.debts.length) :
    debtKey (step sys op).store.debts[i] = debtKey sys.store.debts[i] ∧
    statusStep sys.store.debts[i].status (step sys op).store.debts[i].status = true :=
  evo_debt_step (reach_inv sys hR).1.keyNodup
    (step_main sys op (reach_inv sys hR)).2 i h h'

theorem C3_status_monotone_witness :
    debtKey ((step sysH (Op.mpText 2 "1")).store.debts.get ⟨0, by decide⟩) =
      debtKey (sysH.store.debts.get ⟨0, by decide⟩) ∧
    statusStep (sysH.store.debts.get ⟨0, by decide⟩).status
      ((step sysH (Op.mpText 2 "1")).store.debts.get ⟨0, by decide⟩).status = true :=
  C3_status_monotone sysH reachH (Op.mpText 2 "1") 0 (by decide) (by decide)

/-- C4 (confirmed): trying to mark a (transaction, debtor) pair none of
whose debt rows is pending fails — the transaction is absent from the
caller's pending list, so mp_select replies "Transaction no dey or don
already process", stays in MP_SELECT — and the store is unchanged. -/
theorem C4_mark_nonpending_fails (s : Store) (u txId : ℕ) (text : String)
    (hparse : pyInt? (pyStrip text) = some txId)
    (h : ∀ d ∈ s.debts, d.transaction_id = txId → d.debtor_id = u →
      d.status ≠ Status.pending) :
    mp_select s u text = (s, Session.mpSelect, MpOutcome.notFoundOrProcessed) := by
  have hfind : (get_pending_debts_for_user s u).find? (fun t => t.id == txId) = none := by
    rw [List.find?_eq_none]
    intro t ht
    obtain ⟨d, hd, hdu, hst, htx, _⟩ := mem_pending_debts ht
    simp only [beq_iff_eq]
    intro hid
    exact h d hd (htx.trans hid) hdu hst
  simp [mp_select, hparse, hfind]

/-- A store with one marked debt, used as the C4 witness input. -/
def storeC4 : Store := ⟨[], [⟨1, 1, 10, "x", 10⟩], [⟨1, 2, Status.marked⟩], 2⟩

theorem C4_mark_nonpending_fails_witness :
    mp_select storeC4 2 "1" = (storeC4, Session.mpSelect, MpOutcome.notFoundOrProcessed) :=
  C4_mark_nonpending_fails storeC4 2 1 "1" (by decide) (by decide)

/-- C5 (confirmed): a confirm attempt by anyone who is not the
transaction's spender fails and changes no debt of that transaction.  The
transaction is absent from the caller's pending-confirmation list, so
cp_select replies "Transaction not found or you no be spender" with the
store untouched; and whatever CP-conversation text the caller sends, the
debts of that transaction keep their statuses (a stored cp_tx_id was
validated by cp_select, so cp_debtor can only confirm the caller's own
transactions). -/
theorem C5_confirm_not_spender_fails (sys : Sys) (hR : Reach sys) (u : ℕ)
    (t : Txn) (text : String) (ht : t ∈ sys.store.transactions)
    (hsp : t.spender ≠ u) (hparse : pyInt? (pyStrip text) = some t.id) :
    cp_select sys.store u text =
      (sys.store, Session.cpSelect, CpOutcome.notFoundOrNotSpender) ∧
    (step sys (Op.cpText u text)).store.debts.filter
        (fun d => d.transaction_id == t.id) =
      sys.store.debts.filter (fun d => d.transaction_id == t.id) := by
  have hI := reach_inv sys hR
  have hfind : (get_pending_confirmations_for_spender sys.store u).find?
      (fun t' => t'.id == t.id) = none := by
    rw [List.find?_eq_none]
    intro t' ht'
    have hc := mem_pending_conf ht'
    simp only [beq_iff_eq]
    intro hid
    have heq : t' = t := List.inj_on_of_nodup_map hI.1.txNodup hc.1 ht hid
    rw [heq] at hc
    exact hsp hc.2
  have hcp : cp_select sys.store u text =
      (sys.store, Session.cpSelect, CpOutcome.notFoundOrNotSpender) := by
    simp [cp_select, hparse, hfind]
  refine ⟨hcp, ?_⟩
  cases hs : sys.session u with
  | cpSelect =>
    simp only [step, hs, hcp]
  | cpDebtor txId =>
    have hold : ∃ t' ∈ sys.store.transactions, t'.id = txId ∧ t'.spender = u := by
      have hx := hI.2 u
      rw [hs] at hx
      exact hx
    obtain ⟨t', ht', hid', hsp'⟩ := hold
    have hne : txId ≠ t.id := by
      intro hEq
      have heq : t' = t :=
        List.inj_on_of_nodup_map hI.1.txNodup ht' ht (hid'.trans hEq)
      rw [heq] at hsp'
      exact hsp hsp'
    simp only [step, hs]
    cases hfn : (get_marked_debtors sys.store txId).find?
        (fun d => (get_user sys.store d).map lowerStr
          == some (lowerStr (pyStrip text))) with
    | none => simp [cp_debtor, hfn]
    | some d =>
      simp only [cp_debtor, hfn]
      exact filter_confirm_ne sys.store txId d t.id hne
  | sNone => simp [step, hs]
  | aeAmount => simp [step, hs]
  | aeDescription a => simp [step, hs]
  | aeSelect a de sel => simp [step, hs]
  | mpSelect => simp [step, hs]

theorem C5_confirm_not_spender_fails_witness :
    cp_select sysH.store 2 "1" =
      (sysH.store, Session.cpSelect, CpOutcome.notFoundOrNotSpender) ∧
    (step sysH (Op.cpText 2 "1")).store.debts.filter
        (fun d => d.transaction_id == (⟨1, 1, 1000, "dinner", 1000⟩ : Txn).id) =
      sysH.store.debts.filter
        (fun d => d.transaction_id == (⟨1, 1, 1000, "dinner", 1000⟩ : Txn).id) :=
  C5_confirm_not_spender_fails sysH reachH 2 ⟨1, 1, 1000, "dinner", 1000⟩ "1"
    (by decide) (by decide) (by decide)

/-- C6 counterexample: `create_transaction` does not fail with InvalidSplit
on the claimed inputs.  With empty debtor_ids it creates the transaction
row — with no debts — and returns its id; with debtor_ids containing the
spender it creates a debt row owed by the spender to themselves. -/
theorem C6_invalid_split_counterexample :
    (add_transaction storeEmpty 1 100 "pizza" 100 []).1.transactions =
      [⟨1, 1, 100, "pizza", 100⟩] ∧
    (add_transaction storeEmpty 1 100 "pizza" 100 []).1.debts = [] ∧
    (add_transaction storeEmpty 1 100 "pizza" 100 []).2 = 1 ∧
    (add_transaction storeEmpty 1 100 "pizza" 50 [1, 2]).1.debts =
      [⟨1, 1, Status.pending⟩, ⟨1, 2, Status.pending⟩] :=
  ⟨by decide, by decide, by decide, by decide⟩

/-- C6 (amended): `add_transaction` itself never fails and performs no
validation.  The empty case is guarded one level up: `ae_select_callback`
on "select_done" with an empty selection cancels the expense and leaves the
store untouched, so empty debtor_ids never reach the database through the
bot flow; but nothing guards against the spender appearing among
debtor_ids, in which case a pending debt row debited to the spender is
created (only the displayed keyboard omits the spender's button). -/
theorem C6_invalid_split_amended (s : Store) (u : ℕ) (a : ℚ) (de : String)
    (sh : ℚ) (ids : List ℕ) (hmem : u ∈ ids) :
    ae_select_callback s u a de [] "select_done" =
      (s, Session.sNone, AeOutcome.canceled) ∧
    (⟨(add_transaction s u a de sh ids).2, u, Status.pending⟩ : Debt)
      ∈ (add_transaction s u a de sh ids).1.debts := by
  constructor
  · rfl
  · show _ ∈ s.debts ++ ids.map (fun d => (⟨s.nextId, d, Status.pending⟩ : Debt))
    refine List.mem_append_right _ ?_
    rw [List.mem_map]
    exact ⟨u, hmem, rfl⟩

theorem C6_invalid_split_amended_witness :
    ae_select_callback storeEmpty 1 100 "pizza" [] "select_done" =
      (storeEmpty, Session.sNone, AeOutcome.canceled) ∧
    (⟨(add_transaction storeEmpty 1 100 "pizza" 50 [1, 2]).2, 1, Status.pending⟩ : Debt)
      ∈ (add_transaction storeEmpty 1 100 "pizza" 50 [1, 2]).1.debts :=
  C6_invalid_split_amended storeEmpty 1 100 "pizza" 50 [1, 2] (by decide)

/-- A store with one pending debt of user 2 on transaction 1, used by the
C7 race. -/
def storeC7 : Store :=
  ⟨[(1, "ada"), (2, "bob")], [⟨1, 1, 10, "dinner", 10⟩],
   [⟨1, 2, Status.pending⟩], 2⟩

/-- C7 counterexample: interleaving two concurrent mark invocations for the
same (transaction, debtor) pair so that both pending checks read the store
before either write commits makes both report success; neither caller
receives AlreadyProcessed (the final status is still marked, so the state
is not corrupted, but the claimed one-success-one-failure outcome does not
hold). -/
theorem C7_double_mark_counterexample :
    (mp_mark_race storeC7 2 1).2 = (true, true) ∧
    (mp_mark_race storeC7 2 1).1.debts = [⟨1, 2, Status.marked⟩] :=
  ⟨by decide, by decide⟩

/-- C7 (amended): only sequential double-marking yields one success and one
failure: whatever the first `mp_select` for the pair did, running the same
`mp_select` again on the resulting store finds no pending row, fails with
the already-processed reply and leaves the store unchanged. -/
theorem C7_double_mark_amended (s : Store) (u txId : ℕ) (text : String)
    (hparse : pyInt? (pyStrip text) = some txId) :
    mp_select (mp_select s u text).1 u text =
      ((mp_select s u text).1, Session.mpSelect, MpOutcome.notFoundOrProcessed) := by
  cases hfind : (get_pending_debts_for_user s u).find? (fun t => t.id == txId) with
  | none =>
    have h1 : (mp_select s u text).1 = s := by
      simp [mp_select, hparse, hfind]
    rw [h1]
    simp [mp_select, hparse, hfind]
  | some t0 =>
    have h1 : (mp_select s u text).1 = mark_debt_as_marked s txId u := by
      simp [mp_select, hparse, hfind]
    rw [h1]
    simp [mp_select, hparse, pending_after_mark]

theorem C7_double_mark_amended_witness :
    mp_select (mp_select storeC7 2 "1").1 2 "1" =
      ((mp_select storeC7 2 "1").1, Session.mpSelect, MpOutcome.notFoundOrProcessed) :=
  C7_double_mark_amended storeC7 2 1 "1" (by decide)

/-- C8 counterexample: the amount step does not require a positive value:
the input "-5" parses and the session advances to the description step
carrying the non-positive amount -5. -/
theorem C8_amount_parse_counterexample :
    ae_amount "-5" = Session.aeDescription (-5) ∧ ¬ (0 < (-5 : ℚ)) :=
  ⟨by decide, by decide⟩

/-- C8 (amended): at the amount step the input is stripped, thousands
separators removed, and parsed as a signed decimal.  On parse failure the
session stays in the amount step (a retry keeping all state, not a
restart); on any parse success — positive or not — it advances to the
description step carrying the parsed amount.  The store and every other
user's session are untouched either way. -/
theorem C8_amount_parse_amended (sys : Sys) (u v : ℕ) (text : String)
    (hs : sys.session u = Session.aeAmount) (hv : v ≠ u) :
    (step sys (Op.aeText u text)).store = sys.store ∧
    (step sys (Op.aeText u text)).session v = sys.session v ∧
    (step sys (Op.aeText u text)).session u =
      (match pyFloat (stripCommas (pyStrip text)) with
       | none => Session.aeAmount
       | some q => Session.aeDescription q) := by
  refine ⟨?_, ?_, ?_⟩
  · simp [step, hs]
  · simp [step, hs, setSess, hv]
  · simp only [step, hs, setSess, if_pos rfl]
    rfl

theorem C8_amount_parse_amended_witness :
    (step sysC (Op.aeText 1 "1,000")).store = sysC.store ∧
    (step sysC (Op.aeText 1 "1,000")).session 2 = sysC.session 2 ∧
    (step sysC (Op.aeText 1 "1,000")).session 1 =
      (match pyFloat (stripCommas (pyStrip "1,000")) with
       | none => Session.aeAmount
       | some q => Session.aeDescription q) :=
  C8_amount_parse_amended sysC 1 2 "1,000" (by decide) (by decide)

/-- C9 (confirmed): after a successful `add_transaction` whose id is fresh,
every selected debtor's pending-debts view contains the new transaction
row, echoing exactly the spender, amount, description and share that were
stored. -/
theorem C9_pending_debt_visible (s : Store) (sp : ℕ) (a : ℚ) (de : String)
    (sh : ℚ) (ids : List ℕ) (d : ℕ) (hd : d ∈ ids)
    (hfresh : ∀ t ∈ s.transactions, t.id < s.nextId) :
    (⟨(add_transaction s sp a de sh ids).2, sp, a, de, sh⟩ : Txn)
      ∈ get_pending_debts_for_user (add_transaction s sp a de sh ids).1 d := by
  unfold get_pending_debts_for_user
  rw [List.mem_filterMap]
  refine ⟨⟨s.nextId, d, Status.pending⟩, ?_, ?_⟩
  · rw [List.mem_filter]
    constructor
    · show _ ∈ s.debts ++ ids.map (fun x => (⟨s.nextId, x, Status.pending⟩ : Debt))
      refine List.mem_append_right _ ?_
      rw [List.mem_map]
      exact ⟨d, hd, rfl⟩
    · simp
  · show (s.transactions ++ [(⟨s.nextId, sp, a, de, sh⟩ : Txn)]).find?
        (fun t => t.id == s.nextId) = some (⟨s.nextId, sp, a, de, sh⟩ : Txn)
    exact find?_fresh_append s.transactions ⟨s.nextId, sp, a, de, sh⟩
      (fun t ht => Nat.ne_of_lt (hfresh t ht))

theorem C9_pending_debt_visible_witness :
    (⟨(add_transaction storeEmpty 1 60 "suya" 30 [2, 3]).2, 1, 60, "suya", 30⟩ : Txn)
      ∈ get_pending_debts_for_user (add_transaction storeEmpty 1 60 "suya" 30 [2, 3]).1 2 :=
  C9_pending_debt_visible storeEmpty 1 60 "suya" 30 [2, 3] 2 (by decide) (by decide)

/-- C10 (confirmed): in every reachable state an in-progress participant
selection contains no duplicate user ids — selecting a participant twice
records them once — and committing a non-empty selection inserts exactly
one pending debt row per selected debtor: the new transaction's debt rows
are exactly the (duplicate-free) selection. -/
theorem C10_selection_nodup (sys : Sys) (hR : Reach sys) (u : ℕ) (a : ℚ)
    (de : String) (sel : List ℕ)
    (hs : sys.session u = Session.aeSelect a de sel) (hne : sel ≠ []) :
    sel.Nodup ∧
    ((step sys (Op.aeSelectCb u "select_done")).store.debts.filter
        (fun d => d.transaction_id == sys.store.nextId)).map Debt.debtor_id = sel := by
  have hI := reach_inv sys hR
  have hnd : sel.Nodup := by
    have hx := hI.2 u
    rw [hs] at hx
    exact hx
  refine ⟨hnd, ?_⟩
  have hemp : sel.isEmpty = false := by
    cases sel with
    | nil => exact absurd rfl hne
    | cons x l => rfl
  simp only [step, hs, ae_select_callback, if_pos rfl, hemp]
  show ((add_transaction sys.store u a de (share_calc a sel.length) sel).1.debts.filter
      (fun d => d.transaction_id == sys.store.nextId)).map Debt.debtor_id = sel
  show ((sys.store.debts ++ sel.map (fun x => (⟨sys.store.nextId, x, Status.pending⟩ : Debt))).filter
      (fun d => d.transaction_id == sys.store.nextId)).map Debt.debtor_id = sel
  rw [List.filter_append]
  have hold : sys.store.debts.filter (fun d => d.transaction_id == sys.store.nextId) = [] := by
    rw [List.filter_eq_nil_iff]
    intro d hdm
    simp only [beq_iff_eq]
    exact Nat.ne_of_lt (hI.1.debtBound d hdm)
  have hnew : (sel.map (fun x => (⟨sys.store.nextId, x, Status.pending⟩ : Debt))).filter
      (fun d => d.transaction_id == sys.store.nextId) =
      sel.map (fun x => (⟨sys.store.nextId, x, Status.pending⟩ : Debt)) := by
    rw [List.filter_eq_self]
    intro d hdm
    rw [List.mem_map] at hdm
    obtain ⟨x, _, hx⟩ := hdm
    rw [← hx]
    simp
  rw [hold, hnew, List.nil_append, List.map_map]
  exact List.map_id' sel

theorem C10_selection_nodup_witness :
    ([2] : List ℕ).Nodup ∧
    ((step sysF (Op.aeSelectCb 1 "select_done")).store.debts.filter
        (fun d => d.transaction_id == sysF.store.nextId)).map Debt.debtor_id = [2] :=
  C10_selection_nodup sysF reachF 1 1000 "dinner" [2] (by decide) (by decide)

end SaveThePoor
